import Mathlib

/-!
Verification development for the dynamic-terminal rendering core
(`src/ChangeAlgorithm.ts`, `src/DynamicTerminal.ts`, `src/DynamicTerminalThread.ts`).

A styled string is a JavaScript string containing visible characters
interleaved with ANSI escape sequences.  The code tokenizes such strings with
the external `ansi-regex` package (every escape sequence is matched as one
unit) and strips them with `strip-ansi`.  We embed a styled string as a list
of tokens: either a plain visible character or one whole escape sequence.
Concatenating the tokens (characters verbatim, code strings verbatim) gives
back the JavaScript string, and `strip` gives the `strip-ansi` result.
-/

namespace DynTerm

/-- A token of a styled string: a visible character or one ANSI escape
sequence (as matched in one piece by the `ansi-regex` dependency). -/
inductive Tok where
  | ch (c : Char)
  | code (s : String)
deriving DecidableEq, Repr

/-- `strip-ansi`: the visible characters of a styled string. -/
def strip : List Tok → List Char
  | [] => []
  | Tok.ch c :: ts => c :: strip ts
  | Tok.code _ :: ts => strip ts

/-- The per-position escape-code map built by `getChanges` (ChangeAlgorithm.ts
lines 49–86): position `i` maps to the concatenation, in order of appearance,
of all escape sequences sitting immediately before the `i`-th stripped
character (or after the last character, for `i` = stripped length);
`none` when no sequence sits there (a JS `undefined` map entry). -/
def codeAt : List Tok → Nat → Option String
  | [], _ => none
  | Tok.ch _ :: _, 0 => none
  | Tok.ch _ :: ts, n + 1 => codeAt ts n
  | Tok.code s :: ts, 0 => some (s ++ (codeAt ts 0).getD "")
  | Tok.code _ :: ts, n + 1 => codeAt ts (n + 1)

/-- The ascending list of stripped positions that carry an escape code
(ChangeAlgorithm.ts `targetCodeArray` / `originalCodeArray`: positions are
pushed in order of appearance, which is ascending, without duplicates). -/
def codePositions (ts : List Tok) : List Nat :=
  (List.range ((strip ts).length + 1)).filter fun i => (codeAt ts i).isSome

/-- `IChange` (DynamicTerminalThread.ts lines 432–436); the `text` is a styled
string, kept in token form. -/
structure Change where
  line : Nat
  index : Nat
  text : List Tok
deriving DecidableEq, Repr

/-- `ansi.eraseEndLine` from the `ansi-escapes` dependency. -/
def ERASE_LINE_END : String := "\x1B[K"

/-- `ansi.eraseDown` from the `ansi-escapes` dependency. -/
def ERASE_DOWN : String := "\x1B[J"

/-- `RESET_STYLE` (ChangeAlgorithm.ts line 8). -/
def RESET_STYLE : String := "\x1B[39;49m"

/-- The characters removed by JavaScript `String.prototype.trim`
(whitespace and line terminators; the common subset suffices here). -/
def jsWhitespace (c : Char) : Bool :=
  c = ' ' || c = '\t' || c = '\n' || c = '\r' ||
  c = '\x0b' || c = '\x0c' || c = ' ' || c = '﻿'

/-- `stripAnsi(text).trim() !== ""` (ChangeAlgorithm.ts lines 146, 162):
a change is kept only if its stripped text has a non-whitespace character. -/
def keepChange (text : List Tok) : Bool :=
  (strip text).any fun c => !(jsWhitespace c)

/-- The prepend search when opening a change (ChangeAlgorithm.ts lines
110–119): the code map entry at the largest code position `≤ i`, walking the
ascending position list and stopping at the first position `> i`. -/
def lastCodeLE (posT : List Nat) (cT : Nat → Option String) (i : Nat) :
    Option String :=
  posT.foldl (fun acc p => if p ≤ i then cT p else acc) none

/-- The close search (ChangeAlgorithm.ts lines 137–144): the first code
position `≥ i` in the ascending position list. -/
def firstGE (posT : List Nat) (i : Nat) : Option Nat :=
  posT.find? fun p => i ≤ p

/-- JavaScript `strippedTarget.substring(a, b)` as characters `a..b-1`. -/
def takeRange (l : List Char) (a b : Nat) : List Char :=
  (l.drop a).take (b - a)

/-- `if (targetCodeArray.indexOf(i) !== -1) changeBuffer.text += targetCodeMap[i]`
(ChangeAlgorithm.ts lines 102–104, 129–131, 158–160): append the code map
entry at a position to an open change's text, when one is there. -/
def addCode (b : Change) (o : Option String) : Change :=
  if o.isSome then { b with text := b.text ++ [Tok.code (o.getD "")] } else b

/-- `changeBuffer.text += strippedTarget[i]` (lines 105, 132). -/
def addChar (b : Change) (c : Char) : Change :=
  { b with text := b.text ++ [Tok.ch c] }

/-- The text of a freshly opened change (lines 108–122): the current
character, preceded by the nearest active style sequence at or before the
column, or `RESET_STYLE` when none exists. -/
def openText (posT : List Nat) (cT : Nat → Option String) (i : Nat)
    (tci : Char) : List Tok :=
  match lastCodeLE posT cT i with
  | some c => [Tok.code c, Tok.ch tci]
  | none => [Tok.code RESET_STYLE, Tok.ch tci]

/-- The close-extension of a change (lines 137–144): the characters up to
the first code position `≥ i`, then that code. -/
def closeExt (sT : List Char) (cT : Nat → Option String) (posT : List Nat)
    (i : Nat) (b : Change) : Change :=
  match firstGE posT i with
  | some p =>
    { b with text := b.text ++ (takeRange sT i p).map Tok.ch
        ++ [Tok.code ((cT p).getD "")] }
  | none => b

/-- The character-scan loop of `getChanges` (ChangeAlgorithm.ts lines
97–166), translated branch for branch.  `sO`/`sT` are the stripped original
and target, `cO`/`cT` their code maps, `posT` the target's code-position
list, `i` the loop counter, `changes` the accumulated list and `buf` the
open change (`changeBuffer`).  The loop structure `for i < sT.length` is
realised by iterating over the remaining target characters `rem`
(`rem = sT.drop i` at every call, so the head of `rem` is
`strippedTarget[i]` and emptiness of `rem` is the loop exit `i ≥ length`);
the fall-through after the loop (lines 157–166) is the `[]` arm. -/
def gcLoop (sO sT : List Char) (cO cT : Nat → Option String)
    (posT : List Nat) (line : Nat) :
    List Char → Nat → List Change → Option Change → List Change
  | [], _, changes, buf =>
    -- end of loop: close the still-open change (lines 157–166)
    (match buf with
     | some b =>
       if keepChange (addCode b (cT sT.length)).text then
         changes ++ [addCode b (cT sT.length)]
       else changes
     | none => changes)
  | tci :: rem, i, changes, buf =>
    if some tci ≠ sO[i]? ∨ cO i ≠ cT i then
      -- divergent column (line 99)
      match buf with
      | some b =>
        -- a change is already open (lines 100–105)
        gcLoop sO sT cO cT posT line rem (i + 1) changes
          (some (addChar (addCode b (cT i)) tci))
      | none =>
        -- open a new change, prepending the active style or a reset
        -- (lines 106–123)
        gcLoop sO sT cO cT posT line rem (i + 1) changes
          (some ⟨line, i, openText posT cT i tci⟩)
    else
      match buf with
      | none => gcLoop sO sT cO cT posT line rem (i + 1) changes none
      | some b =>
        if (sT[i + 1]?).isSome ∧ sT[i + 1]? ≠ sO[i + 1]? then
          -- one-character gap: keep the change open (lines 128–132)
          gcLoop sO sT cO cT posT line rem (i + 1) changes
            (some (addChar (addCode b (cT i)) tci))
        else
          -- close: extend to the nearest code position ≥ i, then keep the
          -- change unless its stripped text is all whitespace (lines 134–150)
          gcLoop sO sT cO cT posT line rem (i + 1)
            (if keepChange (closeExt sT cT posT i b).text then
              changes ++ [closeExt sT cT posT i b]
            else changes) none

/-- Append a token to the text of the last change of a list
(`changes[changes.length - 1].text += ...`). -/
def appendTokLast : List Change → Tok → List Change
  | [], _ => []
  | [c], t => [{ c with text := c.text ++ [t] }]
  | c :: rest, t => c :: appendTokLast rest t

/-- `ChangeAlgorithm.getChanges` (ChangeAlgorithm.ts lines 20–182). -/
def getChanges (original target : List Tok) (line : Nat) : List Change :=
  if original = target then []
  else if original = [] then [⟨line, 0, target⟩]
  else if target = [] then [⟨line, 0, [Tok.code ERASE_LINE_END]⟩]
  else
    let sO := strip original
    let sT := strip target
    let cs := gcLoop sO sT (codeAt original) (codeAt target)
      (codePositions target) line sT 0 [] none
    -- if the target is shorter, erase the rest of the line (lines 169–179)
    if sT.length < sO.length then
      if 0 < cs.length then appendTokLast cs (Tok.code ERASE_LINE_END)
      else [⟨line, sT.length, [Tok.code ERASE_LINE_END]⟩]
    else cs

/-- A plain (code-free) styled string. -/
def strToks (s : String) : List Tok := s.data.map Tok.ch

/-! ### The row model used by the round-trip property

The claim's model of one terminal row: a column-addressable buffer of
visible characters.  Applying a Change writes its stripped text character
by character starting at its column `index`; an erase-to-end-of-line
marker clears the buffer from the position the cursor has reached.
Other escape codes have no effect on the cell contents. -/

/-- Write the character `c` into cell `pos`, growing the row (with blank
cells) if it is shorter. -/
def writeAt (buf : List Char) (pos : Nat) (c : Char) : List Char :=
  if pos < buf.length then buf.set pos c
  else buf ++ List.replicate (pos - buf.length) ' ' ++ [c]

/-- Apply one token of a Change's text to the row at the given cursor. -/
def applyTok : List Char × Nat → Tok → List Char × Nat
  | (buf, cur), Tok.ch c => (writeAt buf cur c, cur + 1)
  | (buf, cur), Tok.code s =>
    if s = ERASE_LINE_END then (buf.take cur, cur) else (buf, cur)

/-- Apply one Change to the row. -/
def applyChange (buf : List Char) (c : Change) : List Char :=
  (c.text.foldl applyTok (buf, c.index)).1

/-- Apply a list of Changes to the row, in order. -/
def applyChanges (buf : List Char) (cs : List Change) : List Char :=
  cs.foldl applyChange buf

/-! ### Tokenizing JavaScript strings

The thread code calls `getChanges` on raw strings.  `ansi-regex` (external
dependency, treated at its interface) matches whole escape sequences; we
recognise the CSI form `ESC [ parameter-bytes final-byte`, which covers
every sequence this program emits or styles with. -/

/-- A byte that terminates a CSI sequence. -/
def isCSIFinal (c : Char) : Bool := 0x40 ≤ c.toNat && c.toNat ≤ 0x7E

/-- Tokenize a character stream.  `acc = none`: normal text, where
`ESC [` opens a sequence; `acc = some collected`: inside a sequence,
collecting (in reverse) until the final byte.  Well-formed styled strings
contain no unterminated sequence, so the `some`/`[]` arm is unreachable on
them. -/
def tokAux : Option (List Char) → List Char → List Tok
  | none, [] => []
  | none, '\x1B' :: '[' :: rest => tokAux (some ['[', '\x1B']) rest
  | none, c :: rest => Tok.ch c :: tokAux none rest
  | some acc, [] => [Tok.code (String.mk acc.reverse)]
  | some acc, c :: rest =>
    if isCSIFinal c then Tok.code (String.mk (c :: acc).reverse) :: tokAux none rest
    else tokAux (some (c :: acc)) rest

/-- Tokenize a JavaScript string into visible characters and escape
sequences (model of applying `ansi-regex`/`strip-ansi` to a well-formed
styled string: every escape sequence is matched as one unit; the CSI form
`ESC [ parameter-bytes final-byte` covers every sequence this program
emits or styles with). -/
def tokenize (s : String) : List Tok := tokAux none s.data

/-- Flatten tokens back to the JavaScript string they represent. -/
def flat (ts : List Tok) : String :=
  ts.foldl (fun acc t => match t with
    | Tok.ch c => acc.push c
    | Tok.code s => acc ++ s) ""

/-! ### JavaScript string helpers used by the thread -/

/-- `List` version of `String.startsWith`. -/
def startsWithL : List Char → List Char → Bool
  | [], _ => true
  | _ :: _, [] => false
  | a :: as, b :: bs => a = b && startsWithL as bs

/-- `hay.indexOf(needle) !== -1` for JavaScript strings, on character
lists. -/
def hasSubstr (needle : List Char) : List Char → Bool
  | [] => startsWithL needle []
  | c :: rest => startsWithL needle (c :: rest) || hasSubstr needle rest

/-- JavaScript `hay.replace(needle, repl)` with a string pattern: only the
first occurrence is replaced.  (Edge case `"".replace("", r) = r` is not
reproduced; the needle used by the thread, the spinner placeholder, is
never empty.) -/
def replaceFirstL (needle repl : List Char) : List Char → List Char
  | [] => []
  | c :: rest =>
    if startsWithL needle (c :: rest) then repl ++ (c :: rest).drop needle.length
    else c :: replaceFirstL needle repl rest

/-- JavaScript `hay.replace(needle, repl)` on strings. -/
def jsReplaceFirst (hay needle repl : String) : String :=
  String.mk (replaceFirstL needle.data repl.data hay.data)

/-- JavaScript `text.split("\n")` on character lists: `""` gives `[""]`,
separators delimit (possibly empty) fields. -/
def splitLinesCL : List Char → List (List Char)
  | [] => [[]]
  | c :: rest =>
    let r := splitLinesCL rest
    if c = '\n' then [] :: r
    else
      match r with
      | [] => [[c]]
      | h :: t => (c :: h) :: t

/-- JavaScript `text.split("\n")`. -/
def jsSplitNewline (s : String) : List String :=
  (splitLinesCL s.data).map String.mk

/-! ### The render thread (DynamicTerminalThread.ts)

The thread owns session state and writes to stdout.  External collaborators
(the `wrap-ansi` and `indent-string` packages, the terminal size provider
and the initial raw-mode state of stdin) are opaque at their interface, per
the specification, and are therefore parameters of the model.  Terminal
writes are recorded in an append-only output log. -/

/-- Opaque external collaborators of the thread. -/
structure Env where
  /-- `wrapAnsi(text, width, {hard: true, trim: false})`: hard-wraps,
  inserting line breaks. -/
  wrap : String → Nat → String
  /-- `indentString(text, n)`. -/
  indentStr : String → Nat → String
  /-- `windowSize.get().width` (constant over the window considered). -/
  width : Nat
  /-- `process.stdin.isRaw` at session start. -/
  stdinIsRaw : Bool
  /-- The frame sequence of the `elegant-spinner` closure. -/
  spinnerFrames : Nat → String

/-- `ILine` (DynamicTerminalThread.ts lines 423–430), with the optional
fields resolved to their ingestion defaults. -/
structure ILine where
  text : String
  indent : Nat
  force : Bool
deriving DecidableEq, Repr

/-- `IOptions` (DynamicTerminalThread.ts lines 438–453). -/
structure IOptions where
  disableInput : Option Bool
  hideCursor : Option Bool
  spinnerColour : Option (String → String)
  updateFrequency : Option Nat
  repaintOnResize : Option Bool

/-- The spinner placeholder token (DynamicTerminalThread.ts line 462). -/
def SPINNER : String := "_*_"

/-- `ansi.cursorHide` / `ansi.cursorShow` (`ansi-escapes`). -/
def CURSOR_HIDE : String := "\x1B[?25l"

def CURSOR_SHOW : String := "\x1B[?25h"

/-- The mutable fields of `DynamicTerminalThread` (lines 470–488) plus an
append-only log of everything written to stdout. -/
structure ThreadState where
  active : Bool
  wasRaw : Option Bool
  cursorHidden : Bool
  previousSpinner : String
  nextSpinner : String
  spinnerPhase : Nat
  spinnerColor : String → String
  updateFrequency : Nat
  repaintOnResize : Bool
  previousSize : Nat
  previousRender : List ILine
  nextRender : List ILine
  renderInterval : Bool
  cursorLine : Nat
  cursorIndex : Nat
  output : List String

/-- `splitStringToLineObjects` (lines 802–808). -/
def splitStringToLineObjects (text : String) (indent : Nat) (force : Bool) :
    List ILine :=
  (jsSplitNewline text).map fun v => ⟨v, indent, force⟩

/-- One element of the `string | ILine | string[] | ILine[]` input union. -/
inductive InputElem where
  | str (s : String)
  | line (text : String) (indent : Option Nat) (force : Option Bool)
deriving Repr

/-- The `string | ILine | string[] | ILine[]` input union. -/
inductive TextInput where
  | one (e : InputElem)
  | many (es : List InputElem)
deriving Repr

/-- The array branch of `processTextToLineObjects` (lines 781–791):
`element.indent || 0` and `element.force || false` resolve the options. -/
def procElems (es : List InputElem) : List ILine :=
  es.flatMap fun e =>
    match e with
    | InputElem.str s => splitStringToLineObjects s 0 false
    | InputElem.line t i f => splitStringToLineObjects t (i.getD 0) (f.getD false)

/-- `processTextToLineObjects` (lines 773–797): a lone object is wrapped in
an array; a lone string is split directly. -/
def processTextToLineObjects : TextInput → List ILine
  | TextInput.one (InputElem.str s) => splitStringToLineObjects s 0 false
  | TextInput.one (InputElem.line t i f) => procElems [InputElem.line t i f]
  | TextInput.many es => procElems es

/-- The vertical block of `moveCursorTo` (lines 818–826): rewind with a
relative cursor-up sequence, or advance with newlines; either resets the
column tracker. -/
def moveCursorV (s : ThreadState) (line : Nat) : ThreadState :=
  if line < s.cursorLine then
    { s with output := s.output ++ ["\x1B[" ++ toString (s.cursorLine - line) ++ "F"],
             cursorLine := line, cursorIndex := 0 }
  else if s.cursorLine < line then
    { s with output := s.output ++ [String.mk (List.replicate (line - s.cursorLine) '\n')],
             cursorLine := line, cursorIndex := 0 }
  else s

/-- The horizontal block of `moveCursorTo` (lines 828–838): relative
right/left motion, column 0 via carriage return. -/
def moveCursorH (s : ThreadState) (index : Nat) : ThreadState :=
  if s.cursorIndex < index then
    { s with output := s.output ++ ["\x1B[" ++ toString (index - s.cursorIndex) ++ "C"],
             cursorIndex := index }
  else if index < s.cursorIndex then
    if index = 0 then { s with output := s.output ++ ["\r"], cursorIndex := 0 }
    else
      { s with output := s.output ++ ["\x1B[" ++ toString (s.cursorIndex - index) ++ "D"],
               cursorIndex := index }
  else s

/-- `moveCursorTo` (lines 817–839): relative cursor motion, tracking the
believed position and logging the written escape sequences. -/
def moveCursorTo (s : ThreadState) (line index : Nat) : ThreadState :=
  moveCursorH (moveCursorV s line) index

/-- The pre-wrap text of a line in a frame build (render lines 661, 675):
the spinner placeholder is passed through `String.replace`, which
substitutes the first occurrence only. -/
def preWrapText (st : ThreadState) (spinnerGlyph : String) (text : String) :
    String :=
  jsReplaceFirst text SPINNER (st.spinnerColor spinnerGlyph)

/-- The previous-frame build (render lines 657–671): replace, wrap, indent,
split at line breaks. -/
def buildPrevLines (env : Env) (st : ThreadState) (lines : List ILine) :
    List String :=
  lines.flatMap fun line =>
    jsSplitNewline (env.indentStr (env.wrap
      (preWrapText st st.previousSpinner line.text) env.width) line.indent)

/-- The next-frame build (render lines 672–687): as above, each produced
row carrying the logical line's `force` flag. -/
def buildNextLines (env : Env) (st : ThreadState) (lines : List ILine) :
    List (String × Bool) :=
  lines.flatMap fun line =>
    ((jsSplitNewline (env.indentStr (env.wrap
      (preWrapText st st.nextSpinner line.text) env.width) line.indent)).map
      fun t => (t, line.force))

/-- The per-row change collection of one render cycle (render lines
705–723): a `force` row is rewritten whole with an erase-to-end-of-line,
other rows go through `getChanges`; a missing previous row is the empty
string (the JS `undefined` falls back to the `""` default parameter). -/
def cycleLoop (previousLines : List (List Tok))
    (nextLines : List (List Tok × Bool)) (lineNumber : Nat) : List Change :=
  match nextLines with
  | [] => []
  | (t, f) :: rest =>
    (if f then [⟨lineNumber, 0, t ++ [Tok.code ERASE_LINE_END]⟩]
     else getChanges ((previousLines[lineNumber]?).getD []) t lineNumber)
      ++ cycleLoop previousLines rest (lineNumber + 1)

/-- The change list of one render cycle (render lines 705–736), including
the trailing screen erase when the previous frame had more rows. -/
def cycleChanges (previousLines : List (List Tok))
    (nextLines : List (List Tok × Bool)) : List Change :=
  let changes := cycleLoop previousLines nextLines 0
  if nextLines.length < previousLines.length then
    if 0 < changes.length then appendTokLast changes (Tok.code ERASE_DOWN)
    else [⟨0, 0, [Tok.code ERASE_DOWN]⟩]
  else changes

/-- Applying one Change to the terminal (render lines 740–744): move the
cursor, write the text, advance the column tracker by the stripped
length. -/
def applyChangeW (st : ThreadState) (ch : Change) : ThreadState :=
  let st := moveCursorTo st ch.line ch.index
  { st with output := st.output ++ [flat ch.text],
            cursorIndex := st.cursorIndex + (strip ch.text).length }

/-- The body of `render` past the inactive guard (lines 650–767). -/
def renderBody (env : Env) (s : ThreadState) : ThreadState :=
  let previousLines := buildPrevLines env s s.previousRender
  let nextLines := buildNextLines env s s.nextRender
  -- lines 690–691: re-derive the cursor position from the previous frame
  let s := { s with cursorLine := previousLines.length - 1,
                    cursorIndex := ((previousLines.getLast?).getD "").length }
  -- lines 694–699: full repaint on resize
  let p :=
    if s.repaintOnResize ∧ s.previousSize ≠ env.width then
      let s := moveCursorTo s 0 0
      (([] : List String),
        { s with output := s.output ++ [ERASE_DOWN], previousSize := env.width })
    else (previousLines, s)
  let previousLines := p.1
  let s := p.2
  -- line 702
  let s := { s with previousSpinner := s.nextSpinner }
  -- lines 705–736
  let changes := cycleChanges (previousLines.map tokenize)
    (nextLines.map fun q => (tokenize q.1, q.2))
  -- lines 739–745
  let s := changes.foldl applyChangeW s
  -- lines 748–751
  let s := moveCursorTo s (nextLines.length - 1)
    (((nextLines.getLast?).getD ("", false)).1.length)
  -- lines 754–757
  { s with previousRender := nextLines.map fun q => ⟨q.1, 0, false⟩ }

/-- `render` (lines 640–768): no-op while inactive. -/
def render (env : Env) (s : ThreadState) : ThreadState :=
  if s.active then renderBody env s else s

/-- `startTimer` (lines 844–854): arm the spinner interval if a placeholder
is present in the next frame. -/
def startTimer (s : ThreadState) : ThreadState :=
  if !s.renderInterval && s.active
      && s.nextRender.any (fun l => hasSubstr SPINNER.data l.text.data) then
    { s with renderInterval := true }
  else s

/-- `stopTimer` (lines 856–863): disarm the interval, then render once. -/
def stopTimer (env : Env) (s : ThreadState) : ThreadState :=
  if s.renderInterval then render env { s with renderInterval := false } else s

/-- `update` (lines 607–615). -/
def update (env : Env) (s : ThreadState) (text : TextInput) : ThreadState :=
  let s := { s with nextRender := processTextToLineObjects text }
  render env (startTimer s)

/-- `append` (lines 624–629). -/
def append (env : Env) (s : ThreadState) (text : TextInput) : ThreadState :=
  let s := { s with nextRender := s.nextRender ++ processTextToLineObjects text }
  render env (startTimer s)

/-- `getLines` (lines 589–591). -/
def getLines (s : ThreadState) : List ILine := s.nextRender

/-- `resetRender` (lines 596–598). -/
def resetRender (s : ThreadState) : ThreadState := { s with previousRender := [] }

/-- `updateSpinner` (lines 811–814): advance the spinner and render. -/
def updateSpinner (env : Env) (s : ThreadState) : ThreadState :=
  render env { s with nextSpinner := env.spinnerFrames s.spinnerPhase,
                      spinnerPhase := s.spinnerPhase + 1 }

/-- `start` (lines 510–550).  The option record is first merged over the
defaults (line 514); `if (options.X)` guards skip falsy merged values. -/
def start (env : Env) (options : IOptions) (s : ThreadState) : ThreadState :=
  if !s.active then
    let s := { s with active := true }
    let disableInput := (options.disableInput).getD false
    let hideCursor := (options.hideCursor).getD true
    let updateFrequency := (options.updateFrequency).getD 100
    let repaintOnResize := (options.repaintOnResize).getD false
    let s := { s with wasRaw := some env.stdinIsRaw }
    -- raw-mode toggling is an opaque OS call with no stdout write
    let _ := disableInput
    let s := if hideCursor then
        { s with cursorHidden := true, output := s.output ++ [CURSOR_HIDE] }
      else s
    let s := match options.spinnerColour with
      | some f => { s with spinnerColor := f }
      | none => s
    let s := if updateFrequency ≠ 0 then
        { s with updateFrequency := updateFrequency } else s
    let s := if repaintOnResize then
        { s with repaintOnResize := repaintOnResize } else s
    let s := { s with previousRender := [], nextRender := [] }
    let s := { s with output := s.output ++ ["\r" ++ ERASE_LINE_END],
                      cursorLine := 0, cursorIndex := 0 }
    startTimer s
  else s

/-- `stop` (lines 556–584). -/
def stop (env : Env) (commit : Bool) (s : ThreadState) : ThreadState :=
  if s.active then
    let s := { s with active := false }
    let s := stopTimer env s
    let s :=
      if commit then
        let s := render env s
        moveCursorTo s s.previousRender.length 0
      else
        let s := { s with nextRender := [] }
        let s := moveCursorTo s 0 0
        { s with output := s.output ++ [ERASE_DOWN] }
    let s := { s with wasRaw := none }
    let s :=
      if s.cursorHidden then
        { s with output := s.output ++ [CURSOR_SHOW], cursorHidden := false }
      else { s with cursorHidden := false }
    { s with previousRender := [], nextRender := [] }
  else s

/-! ### The message dispatcher and the caller-side adapter
(DynamicTerminalThread.ts lines 885–932, DynamicTerminal.ts) -/

/-- The commands of the message protocol. -/
inductive Cmd where
  | START (options : IOptions)
  | STOP (commit : Bool)
  | UPDATE (text : TextInput)
  | APPEND (text : TextInput)
  | RENDER (force : Bool)
  | RENDER_QUEUE
  | UNKNOWN

/-- A response message (status plus, for the queue query, its data). -/
structure Resp where
  status : String
  data : Option (List ILine)
deriving DecidableEq, Repr

/-- The `process.on("message")` dispatcher (lines 885–932), `DESTROY`
excepted (it kills the process and sends nothing). -/
def handleMessage (env : Env) (s : ThreadState) : Cmd → ThreadState × Resp
  | Cmd.START options => (start env options s, ⟨"started", none⟩)
  | Cmd.STOP commit => (stop env commit s, ⟨"stopped", none⟩)
  | Cmd.UPDATE text => (update env s text, ⟨"updated", none⟩)
  -- line 907: the APPEND case calls `worker.update(msg.text)`
  | Cmd.APPEND text => (update env s text, ⟨"appended", none⟩)
  | Cmd.RENDER force =>
    (render env (if force then resetRender s else s), ⟨"rendered", none⟩)
  | Cmd.RENDER_QUEUE => (s, ⟨"renderQueue", some (getLines s)⟩)
  | Cmd.UNKNOWN => (s, ⟨"error", none⟩)

/-- `DynamicTerminal.getRenderQueue` (DynamicTerminal.ts lines 355–366),
as a function of the `send` outcome (`none` = timeout). -/
def getRenderQueueResult (response : Option Resp) : List ILine :=
  match response with
  | some r => if r.status = "rendered" then r.data.getD [] else []
  | none => []

/-- The response test shared by `start`/`stop`/`update`/`append`/
`forceRender` (e.g. DynamicTerminal.ts lines 303–307): `true` exactly when
a response arrived and carries the expected status. -/
def callerBoolResult (expected : String) (response : Option Resp) : Bool :=
  match response with
  | some r => r.status = expected
  | none => false

/-- The caller side of one `send` call (DynamicTerminal.ts lines 369–396):
a one-shot listener keyed by the request's uuid and a timeout racing to
resolve the promise. -/
structure SendState where
  resolved : Option (Option Resp)
  listenerOn : Bool
  timerOn : Bool
  lastError : Option String
deriving Repr

/-- The state right after `send` registers the timeout and the listener. -/
def sendInit : SendState :=
  ⟨none, true, true, none⟩

/-- An event delivered to the caller: a worker message, or the timer
firing. -/
inductive SendEvent where
  | message (uuid : Nat) (r : Resp)
  | timeout

/-- One event step of the `send` promise (DynamicTerminal.ts lines
376–391): a matching message removes the listener, cancels the timer and
resolves with the message; the timer firing removes the listener, records
the last error and resolves with `null`. -/
def sendStep (id : Nat) (s : SendState) : SendEvent → SendState
  | SendEvent.message uuid r =>
    if s.listenerOn ∧ uuid = id then
      { s with listenerOn := false, timerOn := false, resolved := some (some r) }
    else s
  | SendEvent.timeout =>
    if s.timerOn then
      { s with timerOn := false, listenerOn := false,
               lastError := some "Communication timeout", resolved := some none }
    else s

/-- The default `send` timeout (DynamicTerminal.ts line 369). -/
def defaultSendTimeout : Nat := 10000

/-! ### Concrete instances used to evaluate the model -/

/-- A concrete collaborator instance: identity wrapping/indenting at width
80, a non-raw stdin, a constant spinner frame. -/
def env0 : Env :=
  { wrap := fun s _ => s, indentStr := fun s _ => s, width := 80,
    stdinIsRaw := false, spinnerFrames := fun _ => "|" }

/-- A concrete active session state with empty frames and a constant
spinner styler. -/
def st0 : ThreadState :=
  { active := true, wasRaw := none, cursorHidden := false,
    previousSpinner := "p", nextSpinner := "n", spinnerPhase := 0,
    spinnerColor := fun _ => "@", updateFrequency := 100,
    repaintOnResize := false, previousSize := 80, previousRender := [],
    nextRender := [], renderInterval := false, cursorLine := 0,
    cursorIndex := 0, output := [] }

/-- Original styled string of the overlap scenario: `"xb" ESC[31m "cd"`. -/
def o9 : List Tok := strToks "xb" ++ [Tok.code "\x1B[31m"] ++ strToks "cd"

/-- Target styled string of the overlap scenario: `"ybc" ESC[32m "d"`. -/
def t9 : List Tok := strToks "ybc" ++ [Tok.code "\x1B[32m"] ++ strToks "d"

end DynTerm

namespace DynTerm

/-! ## Helper lemmas -/

theorem appendTokLast_concat (init : List Change) (c : Change) (t : Tok) :
    appendTokLast (init ++ [c]) t = init ++ [{ c with text := c.text ++ [t] }] := by
  induction init with
  | nil => rfl
  | cons d rest ih =>
    cases rest with
    | nil => rfl
    | cons e rest2 =>
      show d :: appendTokLast ((e :: rest2) ++ [c]) t = _
      rw [ih]
      rfl

/-! ## C7 — identity diff is empty -/

/-- C7: for every styled string `s` and every line index,
`getChanges s s line` returns the empty list (covering in particular the
empty string and `"abc"`). -/
theorem c7_identity_diff_empty (s : List Tok) (line : Nat) :
    getChanges s s line = [] := by
  simp [getChanges]

/-! ## C6 — the partial-edit scenario -/

/-- C6 counterexample: `getChanges "Hello world" "Hello there" 0` is not
the single change `{line: 0, index: 6, text: "there"}` claimed. -/
theorem c6_counterexample :
    getChanges (strToks "Hello world") (strToks "Hello there") 0 ≠
      [⟨0, 6, strToks "there"⟩] := by
  decide

/-- C6 amended: `getChanges "Hello world" "Hello there" 0` returns exactly
one change at line 0, index 6, whose text is `"there"` preceded by the
`RESET_STYLE` sequence (prepended because the target carries no style
sequence at or before column 6); there is no end-of-line erase. -/
theorem c6_amended :
    getChanges (strToks "Hello world") (strToks "Hello there") 0 =
      [⟨0, 6, Tok.code RESET_STYLE :: strToks "there"⟩] := by
  decide

/-! ## C1 — the round-trip property fails -/

/-- C1: the round-trip property is violated by the code.  For
`A = "xbc defg"`, `B = "ybc d"` the only change is
`{line: 0, index: 0, text: RESET_STYLE ++ "y" ++ ERASE_LINE_END}` — the
end-of-line erase is appended to a change that ends at column 1, so
applying the changes to a row holding `A`'s stripped content erases the
shared text `"bc d"` and leaves `"y"` instead of `"ybc d"`. -/
theorem c1_roundtrip_fails :
    applyChanges (strip (strToks "xbc defg"))
        (getChanges (strToks "xbc defg") (strToks "ybc d") 0) = ['y'] ∧
    applyChanges (strip (strToks "xbc defg"))
        (getChanges (strToks "xbc defg") (strToks "ybc d") 0) ≠
      strip (strToks "ybc d") := by
  exact ⟨by decide, by decide⟩

/-! ## C5 — shrink always ends in an end-of-line erase -/

/-- C5: whenever the stripped target is strictly shorter than the stripped
original, `getChanges` returns a non-empty list whose last change's text
ends with the erase-to-end-of-line marker; and concretely
`getChanges "abcdef" "abc" 0 = [{line: 0, index: 3, text: ERASE_LINE_END}]`. -/
theorem c5_shrink_erase :
    (∀ (A B : List Tok) (line : Nat),
        (strip B).length < (strip A).length →
        ∃ c, (getChanges A B line).getLast? = some c ∧
          c.text.getLast? = some (Tok.code ERASE_LINE_END)) ∧
    getChanges (strToks "abcdef") (strToks "abc") 0 =
      [⟨0, 3, [Tok.code ERASE_LINE_END]⟩] := by
  constructor
  · intro A B line h
    by_cases hab : A = B
    · subst hab; exact absurd h (lt_irrefl _)
    by_cases hA : A = []
    · rw [hA] at h; simp [strip] at h
    by_cases hB : B = []
    · refine ⟨⟨line, 0, [Tok.code ERASE_LINE_END]⟩, ?_, rfl⟩
      simp [getChanges, hab, hA, hB]
    · simp only [getChanges, if_neg hab, if_neg hA, if_neg hB, if_pos h]
      rcases List.eq_nil_or_concat
          (gcLoop (strip A) (strip B) (codeAt A) (codeAt B)
            (codePositions B) line (strip B) 0 [] none) with hcs | ⟨init, last, hcs⟩
      · rw [hcs]
        exact ⟨⟨line, (strip B).length, [Tok.code ERASE_LINE_END]⟩, rfl, rfl⟩
      · rw [List.concat_eq_append] at hcs
        rw [hcs, if_pos (by simp), appendTokLast_concat]
        refine ⟨{ last with text := last.text ++ [Tok.code ERASE_LINE_END] },
          ?_, ?_⟩
        · rw [List.getLast?_concat]
        · simp
  · decide

/-! ## C10 — the send timeout race -/

/-- C10: delivering the timeout event to a pending `send` resolves it with
`null` (the caller-side boolean operations then return `false` and
`getRenderQueue` returns `[]`) and records the "Communication timeout"
last-error string; a matching response delivered first resolves the call
with the response and cancels the timer, so a later timeout event changes
nothing.  The default timeout is 10000 ms; real time is modelled by the
order in which the two events fire. -/
theorem c10_send_timeout_race :
    (∀ id : Nat,
      (sendStep id sendInit SendEvent.timeout).resolved = some none ∧
      (sendStep id sendInit SendEvent.timeout).lastError =
        some "Communication timeout") ∧
    (∀ expected, callerBoolResult expected none = false) ∧
    getRenderQueueResult none = [] ∧
    (∀ (id : Nat) (r : Resp),
      (sendStep id sendInit (SendEvent.message id r)).resolved = some (some r) ∧
      sendStep id (sendStep id sendInit (SendEvent.message id r))
        SendEvent.timeout = sendStep id sendInit (SendEvent.message id r)) ∧
    defaultSendTimeout = 10000 := by
  refine ⟨fun id => ⟨?_, ?_⟩, fun e => rfl, rfl, fun id r => ⟨?_, ?_⟩, rfl⟩ <;>
    simp [sendStep, sendInit]

/-! ## C4 — getRenderQueue drops the response data -/

/-- C4: the worker answers `RENDER_QUEUE` without touching its state and
with a response of status `"renderQueue"` carrying the next-frame line
list, but the caller tests for status `"rendered"`, so `getRenderQueue`
discards the data and returns the empty list. -/
theorem c4_getRenderQueue_drops_data (env : Env) (s : ThreadState) :
    (handleMessage env s Cmd.RENDER_QUEUE).1 = s ∧
    (handleMessage env s Cmd.RENDER_QUEUE).2 =
      ⟨"renderQueue", some s.nextRender⟩ ∧
    getRenderQueueResult (some (handleMessage env s Cmd.RENDER_QUEUE).2) = [] := by
  refine ⟨rfl, rfl, ?_⟩
  simp only [handleMessage, getLines, getRenderQueueResult]
  rw [if_neg (by decide)]

/-- Witness for C5 at the concrete shrink scenario. -/
theorem c5_shrink_erase_witness :
    ∃ c, (getChanges (strToks "abcdef") (strToks "abc") 0).getLast? = some c ∧
      c.text.getLast? = some (Tok.code ERASE_LINE_END) :=
  c5_shrink_erase.1 (strToks "abcdef") (strToks "abc") 0 (by decide)

/-! ## C2 — APPEND replaces instead of extending -/

theorem moveCursorV_nextRender (s : ThreadState) (a : Nat) :
    (moveCursorV s a).nextRender = s.nextRender := by
  unfold moveCursorV
  split_ifs <;> rfl

theorem moveCursorH_nextRender (s : ThreadState) (b : Nat) :
    (moveCursorH s b).nextRender = s.nextRender := by
  unfold moveCursorH
  split_ifs <;> rfl

theorem moveCursorTo_nextRender (s : ThreadState) (a b : Nat) :
    (moveCursorTo s a b).nextRender = s.nextRender := by
  unfold moveCursorTo
  rw [moveCursorH_nextRender, moveCursorV_nextRender]

theorem applyChangeW_nextRender (st : ThreadState) (ch : Change) :
    (applyChangeW st ch).nextRender = st.nextRender := by
  unfold applyChangeW
  exact moveCursorTo_nextRender st ch.line ch.index

theorem foldl_applyChangeW_nextRender (l : List Change) (st : ThreadState) :
    (l.foldl applyChangeW st).nextRender = st.nextRender := by
  induction l generalizing st with
  | nil => rfl
  | cons c l ih => rw [List.foldl_cons, ih, applyChangeW_nextRender]

theorem renderBody_nextRender (env : Env) (s : ThreadState) :
    (renderBody env s).nextRender = s.nextRender := by
  unfold renderBody
  dsimp only
  rw [moveCursorTo_nextRender, foldl_applyChangeW_nextRender]
  split_ifs <;> simp [moveCursorTo_nextRender]

theorem render_nextRender (env : Env) (s : ThreadState) :
    (render env s).nextRender = s.nextRender := by
  unfold render
  split_ifs
  · exact renderBody_nextRender env s
  · rfl

theorem startTimer_nextRender (s : ThreadState) :
    (startTimer s).nextRender = s.nextRender := by
  unfold startTimer
  split_ifs <;> rfl

/-- C2: an `APPEND` command does not extend the next-frame list — the
dispatcher's APPEND case calls `worker.update`, so afterwards the list is
exactly the normalized new lines and the previously queued lines are
discarded; the thread's (unused) `append` method is what would have
extended it. -/
theorem c2_append_discards_queue (env : Env) (s : ThreadState) (t : TextInput) :
    ((handleMessage env s (Cmd.APPEND t)).1).nextRender =
      processTextToLineObjects t ∧
    (append env s t).nextRender =
      s.nextRender ++ processTextToLineObjects t := by
  constructor
  · show (update env s t).nextRender = _
    unfold update
    rw [render_nextRender, startTimer_nextRender]
  · unfold append
    rw [render_nextRender, startTimer_nextRender]

/-! ## C9 — ordering invariants of the change lists -/

theorem addCode_line (b : Change) (o : Option String) :
    (addCode b o).line = b.line := by
  unfold addCode
  split_ifs <;> rfl

theorem addCode_index (b : Change) (o : Option String) :
    (addCode b o).index = b.index := by
  unfold addCode
  split_ifs <;> rfl

theorem addChar_line (b : Change) (c : Char) : (addChar b c).line = b.line := rfl

theorem addChar_index (b : Change) (c : Char) : (addChar b c).index = b.index := rfl

theorem closeExt_line (sT : List Char) (cT : Nat → Option String)
    (posT : List Nat) (i : Nat) (b : Change) :
    (closeExt sT cT posT i b).line = b.line := by
  unfold closeExt
  cases firstGE posT i <;> rfl

theorem closeExt_index (sT : List Char) (cT : Nat → Option String)
    (posT : List Nat) (i : Nat) (b : Change) :
    (closeExt sT cT posT i b).index = b.index := by
  unfold closeExt
  cases firstGE posT i <;> rfl

/-- Loop invariant of the scan: all closed changes carry the requested
line number, their indices are strictly increasing, and every index is a
visited column (hence below the stripped target's length). -/
theorem gcLoop_inv (sO sT : List Char) (cO cT : Nat → Option String)
    (posT : List Nat) (line : Nat) :
    ∀ (rem : List Char) (i : Nat) (changes : List Change) (buf : Option Change),
      rem.length + i = sT.length →
      (∀ c ∈ changes, c.line = line) →
      changes.Pairwise (fun a b => a.index < b.index) →
      (∀ b, buf = some b → b.line = line ∧ b.index < i ∧
        ∀ c ∈ changes, c.index < b.index) →
      (buf = none → ∀ c ∈ changes, c.index < i) →
      (∀ c ∈ gcLoop sO sT cO cT posT line rem i changes buf,
          c.line = line ∧ c.index < sT.length) ∧
      (gcLoop sO sT cO cT posT line rem i changes buf).Pairwise
        (fun a b => a.index < b.index) := by
  intro rem
  induction rem with
  | nil =>
    intro i changes buf hlen hline hpw hsome hnone
    have hi : i = sT.length := by simpa using hlen
    cases buf with
    | none =>
      simp only [gcLoop]
      exact ⟨fun c hc => ⟨hline c hc, hi ▸ hnone rfl c hc⟩, hpw⟩
    | some b =>
      obtain ⟨hbl, hbi, hbc⟩ := hsome b rfl
      simp only [gcLoop]
      split_ifs with hkeep
      · constructor
        · intro c hc
          rcases List.mem_append.1 hc with hc | hc
          · have := hbc c hc
            exact ⟨hline c hc, by omega⟩
          · have hc2 : c = addCode b (cT sT.length) := by simpa using hc
            subst hc2
            rw [addCode_line, addCode_index]
            exact ⟨hbl, by omega⟩
        · refine List.pairwise_append.2 ⟨hpw, by simp, ?_⟩
          intro a ha c hc
          have hc2 : c = addCode b (cT sT.length) := by simpa using hc
          subst hc2
          rw [addCode_index]
          exact hbc a ha
      · exact ⟨fun c hc => ⟨hline c hc, by have := hbc c hc; omega⟩, hpw⟩
  | cons tci rem ih =>
    intro i changes buf hlen hline hpw hsome hnone
    have hlen' : rem.length + (i + 1) = sT.length := by
      simp only [List.length_cons] at hlen
      omega
    by_cases hdiv : some tci ≠ sO[i]? ∨ cO i ≠ cT i
    · cases buf with
      | some b =>
        obtain ⟨hbl, hbi, hbc⟩ := hsome b rfl
        simp only [gcLoop, if_pos hdiv]
        refine ih (i + 1) changes _ hlen' hline hpw ?_ ?_
        · intro b' hb'
          have hb2 : b' = addChar (addCode b (cT i)) tci := by
            simpa using hb'.symm
          subst hb2
          rw [addChar_line, addChar_index, addCode_line, addCode_index]
          exact ⟨hbl, by omega, fun c hc => by have := hbc c hc; omega⟩
        · intro habs
          exact absurd habs (by simp)
      | none =>
        simp only [gcLoop, if_pos hdiv]
        refine ih (i + 1) changes _ hlen' hline hpw ?_ ?_
        · intro b' hb'
          have hb2 : b' = ⟨line, i, openText posT cT i tci⟩ := by
            simpa using hb'.symm
          subst hb2
          exact ⟨rfl, Nat.lt_succ_self i, fun c hc => hnone rfl c hc⟩
        · intro habs
          exact absurd habs (by simp)
    · cases buf with
      | none =>
        simp only [gcLoop, if_neg hdiv]
        refine ih (i + 1) changes none hlen' hline hpw ?_ ?_
        · intro b' hb'
          exact absurd hb' (by simp)
        · intro _ c hc
          have := hnone rfl c hc
          omega
      | some b =>
        obtain ⟨hbl, hbi, hbc⟩ := hsome b rfl
        by_cases hskip : (sT[i + 1]?).isSome ∧ sT[i + 1]? ≠ sO[i + 1]?
        · simp only [gcLoop, if_neg hdiv, if_pos hskip]
          refine ih (i + 1) changes _ hlen' hline hpw ?_ ?_
          · intro b' hb'
            have hb2 : b' = addChar (addCode b (cT i)) tci := by
              simpa using hb'.symm
            subst hb2
            rw [addChar_line, addChar_index, addCode_line, addCode_index]
            exact ⟨hbl, by omega, fun c hc => by have := hbc c hc; omega⟩
          · intro habs
            exact absurd habs (by simp)
        · simp only [gcLoop, if_neg hdiv, if_neg hskip]
          by_cases hkeep : keepChange (closeExt sT cT posT i b).text
          · rw [if_pos hkeep]
            refine ih (i + 1) (changes ++ [closeExt sT cT posT i b]) none hlen'
              ?_ ?_ ?_ ?_
            · intro c hc
              rcases List.mem_append.1 hc with hc | hc
              · exact hline c hc
              · have hc2 : c = closeExt sT cT posT i b := by simpa using hc
                subst hc2
                rw [closeExt_line]
                exact hbl
            · refine List.pairwise_append.2 ⟨hpw, by simp, ?_⟩
              intro a ha c hc
              have hc2 : c = closeExt sT cT posT i b := by simpa using hc
              subst hc2
              rw [closeExt_index]
              exact hbc a ha
            · intro b' hb'
              exact absurd hb' (by simp)
            · intro _ c hc
              rcases List.mem_append.1 hc with hc | hc
              · have := hbc c hc
                omega
              · have hc2 : c = closeExt sT cT posT i b := by simpa using hc
                subst hc2
                rw [closeExt_index]
                omega
          · rw [if_neg hkeep]
            refine ih (i + 1) changes none hlen' hline hpw ?_ ?_
            · intro b' hb'
              exact absurd hb' (by simp)
            · intro _ c hc
              have := hbc c hc
              omega

theorem appendTokLast_pairwise_lineIndex (cs : List Change) (t : Tok)
    (R : Nat → Nat → Nat → Nat → Prop)
    (h : cs.Pairwise fun a b => R a.line a.index b.line b.index) :
    (appendTokLast cs t).Pairwise fun a b => R a.line a.index b.line b.index := by
  rcases List.eq_nil_or_concat cs with rfl | ⟨init, last, rfl⟩
  · exact List.Pairwise.nil
  · rw [List.concat_eq_append] at h ⊢
    rw [appendTokLast_concat]
    rw [List.pairwise_append] at h ⊢
    obtain ⟨h1, _, h3⟩ := h
    refine ⟨h1, by simp, ?_⟩
    intro a ha c hc
    have hc2 : c = { last with text := last.text ++ [t] } := by simpa using hc
    subst hc2
    exact h3 a ha last (by simp)

theorem appendTokLast_mem (cs : List Change) (t : Tok) :
    ∀ c ∈ appendTokLast cs t,
      ∃ c0, c0 ∈ cs ∧ c.line = c0.line ∧ c.index = c0.index := by
  rcases List.eq_nil_or_concat cs with rfl | ⟨init, last, rfl⟩
  · intro c hc
    exact absurd hc (by simp [appendTokLast])
  · rw [List.concat_eq_append, appendTokLast_concat]
    intro c hc
    rcases List.mem_append.1 hc with hc | hc
    · exact ⟨c, by simp [hc], rfl, rfl⟩
    · have hc2 : c = { last with text := last.text ++ [t] } := by simpa using hc
      subst hc2
      exact ⟨last, by simp, rfl, rfl⟩

/-- `getChanges` invariants: every change carries the requested line, all
indices are bounded by the stripped target's length, and the indices are
strictly increasing. -/
theorem getChanges_line_index (original target : List Tok) (line : Nat) :
    (∀ c ∈ getChanges original target line,
      c.line = line ∧ c.index ≤ (strip target).length) ∧
    (getChanges original target line).Pairwise
      (fun a b => a.index < b.index) := by
  by_cases hab : original = target
  · simp only [getChanges, if_pos hab]
    exact ⟨fun c hc => absurd hc (by simp), List.Pairwise.nil⟩
  by_cases hA : original = []
  · simp only [getChanges, if_neg hab, if_pos hA]
    refine ⟨?_, by simp⟩
    intro c hc
    have hc2 : c = ⟨line, 0, target⟩ := by simpa using hc
    subst hc2
    exact ⟨rfl, Nat.zero_le _⟩
  by_cases hB : target = []
  · simp only [getChanges, if_neg hab, if_neg hA, if_pos hB]
    refine ⟨?_, by simp⟩
    intro c hc
    have hc2 : c = ⟨line, 0, [Tok.code ERASE_LINE_END]⟩ := by simpa using hc
    subst hc2
    exact ⟨rfl, Nat.zero_le _⟩
  · have main := gcLoop_inv (strip original) (strip target)
      (codeAt original) (codeAt target) (codePositions target) line
      (strip target) 0 [] none (by simp) (by simp) List.Pairwise.nil
      (fun b hb => by cases hb) (fun _ c hc => absurd hc (by simp))
    simp only [getChanges, if_neg hab, if_neg hA, if_neg hB]
    split_ifs with hshrink hpos
    · constructor
      · intro c hc
        obtain ⟨c0, hc0, hcl, hci⟩ := appendTokLast_mem _ _ c hc
        have := main.1 c0 hc0
        exact ⟨by rw [hcl]; exact this.1, by omega⟩
      · exact appendTokLast_pairwise_lineIndex _ _
          (fun _ ai _ bi => ai < bi) main.2
    · constructor
      · intro c hc
        have hc2 : c = ⟨line, (strip target).length, [Tok.code ERASE_LINE_END]⟩ := by
          simpa using hc
        subst hc2
        exact ⟨rfl, le_refl _⟩
      · simp
    · exact ⟨fun c hc => ⟨(main.1 c hc).1, by have := (main.1 c hc).2; omega⟩,
        main.2⟩

theorem cycleLoop_line_ge (prev : List (List Tok))
    (next : List (List Tok × Bool)) :
    ∀ (n : Nat), ∀ c ∈ cycleLoop prev next n, n ≤ c.line := by
  induction next with
  | nil => intro n c hc; exact absurd hc (by simp [cycleLoop])
  | cons hd rest ih =>
    intro n c hc
    obtain ⟨t, f⟩ := hd
    simp only [cycleLoop] at hc
    rcases List.mem_append.1 hc with h | h
    · split at h
      · have hc2 : c = ⟨n, 0, t ++ [Tok.code ERASE_LINE_END]⟩ := by simpa using h
        subst hc2
        exact le_refl n
      · have := (getChanges_line_index ((prev[n]?).getD []) t n).1 c h
        omega
    · have := ih (n + 1) c h
      omega

theorem cycleLoop_pairwise (prev : List (List Tok))
    (next : List (List Tok × Bool)) :
    ∀ (n : Nat), (cycleLoop prev next n).Pairwise (fun a b => a.line ≤ b.line) := by
  induction next with
  | nil => intro n; exact List.Pairwise.nil
  | cons hd rest ih =>
    intro n
    obtain ⟨t, f⟩ := hd
    simp only [cycleLoop]
    refine List.pairwise_append.2 ⟨?_, ih (n + 1), ?_⟩
    · split
      · simp
      · have hall := (getChanges_line_index ((prev[n]?).getD []) t n).1
        refine List.pairwise_of_forall_mem_list ?_
        intro a ha b hb
        rw [(hall a ha).1, (hall b hb).1]
    · intro a ha b hb
      have hb2 := cycleLoop_line_ge prev rest (n + 1) b hb
      split at ha
      · have ha2 : a = ⟨n, 0, t ++ [Tok.code ERASE_LINE_END]⟩ := by simpa using ha
        subst ha2
        exact (by omega : n ≤ b.line)
      · have := (getChanges_line_index ((prev[n]?).getD []) t n).1 a ha
        omega

/-- C9 counterexample: for original `"xb" ESC[31m "cd"` and target
`"ybc" ESC[32m "d"`, `getChanges` returns a change covering columns 0–2
(the close extends it to the code position 3) and a change covering
columns 2–3: their written spans overlap at column 2 on the same line. -/
theorem c9_counterexample :
    ¬ (getChanges o9 t9 0).Pairwise (fun a b =>
      a.line ≠ b.line ∨ a.index + (strip a.text).length ≤ b.index ∨
        b.index + (strip b.text).length ≤ a.index) := by
  decide

/-- C9 amended: within one render cycle the concatenated change list is
ordered by ascending line; every change of `getChanges original target
line` carries that `line`, has its index bounded by the stripped target's
length, and the indices are strictly increasing.  (The no-overlap part of
the claim is dropped: the close-extension can write columns that a later
change rewrites, as the counterexample shows.) -/
theorem c9_amended :
    (∀ (original target : List Tok) (line : Nat),
      (∀ c ∈ getChanges original target line,
        c.line = line ∧ c.index ≤ (strip target).length) ∧
      (getChanges original target line).Pairwise
        (fun a b => a.index < b.index)) ∧
    (∀ (prev : List (List Tok)) (next : List (List Tok × Bool)),
      (cycleChanges prev next).Pairwise (fun a b => a.line ≤ b.line)) := by
  refine ⟨getChanges_line_index, ?_⟩
  intro prev next
  simp only [cycleChanges]
  split_ifs with hlt hpos
  · exact appendTokLast_pairwise_lineIndex _ _
      (fun al _ bl _ => al ≤ bl) (cycleLoop_pairwise prev next 0)
  · simp
  · exact cycleLoop_pairwise prev next 0

/-! ## C8 — spinner placeholder replacement is first-occurrence only -/

theorem startsWithL_append (n t : List Char) : startsWithL n (n ++ t) = true := by
  induction n with
  | nil => rfl
  | cons a as ih => simp [startsWithL, ih]

/-- JavaScript `String.replace` specification: when the needle's first
occurrence starts right after `pre`, exactly that occurrence is replaced
and everything else passes through verbatim. -/
theorem replaceFirstL_at (needle repl pre post : List Char) (hne : needle ≠ [])
    (hfirst : ∀ i, i < pre.length →
      startsWithL needle ((pre ++ needle ++ post).drop i) = false) :
    replaceFirstL needle repl (pre ++ needle ++ post) = pre ++ repl ++ post := by
  induction pre with
  | nil =>
    cases needle with
    | nil => exact absurd rfl hne
    | cons n ns =>
      simp only [List.nil_append, List.cons_append]
      simp only [replaceFirstL]
      rw [← List.cons_append, startsWithL_append, if_pos rfl]
      congr 1
      exact List.drop_left (n :: ns) post
  | cons a pre ih =>
    have h0 := hfirst 0 (by simp)
    simp only [List.drop_zero] at h0
    simp only [List.cons_append] at h0 ⊢
    simp only [replaceFirstL]
    rw [h0]
    simp only [Bool.false_eq_true, if_false]
    congr 1
    refine ih ?_
    intro i hi
    have := hfirst (i + 1) (by simp only [List.length_cons]; omega)
    simpa [List.cons_append, List.drop_succ_cons] using this

/-- C8 counterexample: a logical line holding two spinner placeholders
still contains the placeholder after the frame build — only the first
occurrence was replaced before wrapping. -/
theorem c8_counterexample :
    buildNextLines env0 st0 [⟨"_*_ _*_", 0, false⟩] = [("@ _*_", false)] ∧
    hasSubstr SPINNER.data "@ _*_".data = true := by
  exact ⟨by decide, by decide⟩

/-- C8 amended: in each render cycle the FIRST occurrence of the spinner
placeholder in a logical line's text is replaced with the styled spinner
glyph before wrapping (later occurrences pass through verbatim), in both
the previous-frame and the next-frame builds. -/
theorem c8_amended (env : Env) (st : ThreadState) (l : ILine)
    (pre post : List Char)
    (htext : l.text.data = pre ++ SPINNER.data ++ post)
    (hfirst : ∀ i, i < pre.length →
      startsWithL SPINNER.data ((pre ++ SPINNER.data ++ post).drop i) = false) :
    buildPrevLines env st [l] =
      jsSplitNewline (env.indentStr (env.wrap
        (String.mk (pre ++ (st.spinnerColor st.previousSpinner).data ++ post))
        env.width) l.indent) ∧
    buildNextLines env st [l] =
      (jsSplitNewline (env.indentStr (env.wrap
        (String.mk (pre ++ (st.spinnerColor st.nextSpinner).data ++ post))
        env.width) l.indent)).map (fun t => (t, l.force)) := by
  have key : ∀ sp : String, preWrapText st sp l.text =
      String.mk (pre ++ (st.spinnerColor sp).data ++ post) := by
    intro sp
    unfold preWrapText jsReplaceFirst
    rw [htext]
    congr 1
    exact replaceFirstL_at _ _ _ _ (by decide) hfirst
  constructor
  · simp [buildPrevLines, key]
  · simp [buildNextLines, key]

/-- Witness for C8 amended at a concrete line with one placeholder. -/
theorem c8_amended_witness :
    buildPrevLines env0 st0 [⟨"a _*_ b", 0, false⟩] =
      jsSplitNewline (env0.indentStr (env0.wrap
        (String.mk ("a ".data ++ (st0.spinnerColor st0.previousSpinner).data ++
          " b".data)) env0.width) 0) ∧
    buildNextLines env0 st0 [⟨"a _*_ b", 0, false⟩] =
      (jsSplitNewline (env0.indentStr (env0.wrap
        (String.mk ("a ".data ++ (st0.spinnerColor st0.nextSpinner).data ++
          " b".data)) env0.width) 0)).map (fun t => (t, false)) :=
  c8_amended env0 st0 ⟨"a _*_ b", 0, false⟩ "a ".data " b".data
    (by decide) (by decide)

/-! ## C3 — stop(commit=true) never performs the final render -/

/-- C3: the committed stop is insensitive to the pending next-frame
content: `stop` flips `active` to `false` before calling `render()`, whose
inactive guard returns immediately, so no final render happens and the
result is the same as if the pending content had been discarded first. -/
theorem moveCursorTo_cursorHidden (s : ThreadState) (a b : Nat) :
    (moveCursorTo s a b).cursorHidden = s.cursorHidden := by
  unfold moveCursorTo moveCursorH moveCursorV
  split_ifs <;> rfl

/-- `moveCursorTo` neither reads nor changes the next-frame list. -/
theorem moveCursorTo_next_mk (a : Bool) (w : Option Bool) (c2 : Bool)
    (ps ns : String) (ph : Nat) (col : String → String) (f : Nat) (rz : Bool)
    (pz : Nat) (pr nr : List ILine) (ri2 : Bool) (cl2 ci2 : Nat)
    (o : List String) (a2 b2 : Nat) :
    moveCursorTo ⟨a, w, c2, ps, ns, ph, col, f, rz, pz, pr, nr, ri2, cl2, ci2, o⟩
        a2 b2 =
      { moveCursorTo ⟨a, w, c2, ps, ns, ph, col, f, rz, pz, pr, [], ri2, cl2,
          ci2, o⟩ a2 b2 with nextRender := nr } := by
  unfold moveCursorTo moveCursorH moveCursorV
  dsimp only
  split_ifs <;> rfl

theorem c3_stop_skips_final_render (env : Env) (s : ThreadState)
    (h : s.active = true) :
    stop env true s = stop env true { s with nextRender := [] } := by
  obtain ⟨act, wr, ch2, ps, ns, ph, col, fr, rz, pz, pr, nr, ri, cl, ci, out⟩ := s
  replace h : act = true := h
  subst h
  cases ri <;> cases ch2 <;>
    (unfold stop stopTimer render
     simp only [eq_self_iff_true, if_true, Bool.false_eq_true, if_false,
       moveCursorTo_cursorHidden]
     rw [moveCursorTo_next_mk])

/-- Witness for C3: a concrete active session with pending content. -/
theorem c3_stop_skips_final_render_witness :
    stop env0 true { st0 with nextRender := [⟨"hello", 0, false⟩] } =
      stop env0 true { { st0 with nextRender := [⟨"hello", 0, false⟩] } with
        nextRender := [] } :=
  c3_stop_skips_final_render env0 { st0 with nextRender := [⟨"hello", 0, false⟩] }
    rfl

end DynTerm

